import Mathlib

/-!
Shallow embedding of `src/generate_descriptions.py` (glyph-party), the
batching / parallel-fetch / merge / retry pipeline that generates Unicode
glyph descriptions through a remote text-generation API.

Modelling conventions:
- A Python dict keyed by strings is an insertion-ordered association list
  `List (String × String)` with unique keys; `dictInsert` mirrors
  `d[k] = v` (replace in place or append) and `dictUpdate` mirrors
  `d.update(other)`.
- A catalog record (a JSON object) is `CharacterRecord`; the fields
  `char`, `name`, `block` are `Option String` because a JSON object may
  lack them, in which case Python subscripting raises `KeyError`.
  Fallible code returns `Except String`.
- The remote call is abstracted as an oracle.  For the retry layer
  (`generate_descriptions_batch`) the oracle is indexed by attempt
  number; for the orchestrator the oracle maps the rendered prompt and
  attempt number to the outcome of one attempt.
- Python string comparison (used by `sorted`) is code-point
  lexicographic; it is embedded as the structural `charListLt` so that
  the kernel can evaluate it on concrete inputs.
-/

/-- Model for a single glyph description (class `GlyphDescription`). -/
structure GlyphDescription where
  codepoint : String
  description : String
deriving DecidableEq, Repr

/-- A catalog record from `src/unicode-data.json`.  `code` is the record
identity; the remaining fields are optional because the Prompt Builder
subscripts the raw JSON object and a missing key raises `KeyError`. -/
structure CharacterRecord where
  code : String
  char : Option String
  name : Option String
  block : Option String
deriving DecidableEq, Repr

/-- Membership test `k in d` on a Python dict modelled as an association list. -/
def dictContains : List (String × String) → String → Bool
  | [], _ => false
  | p :: m, k => p.1 == k || dictContains m k

/-- Lookup `d[k]` on a Python dict modelled as an association list. -/
def dictGet : List (String × String) → String → Option String
  | [], _ => none
  | p :: m, k => if p.1 == k then some p.2 else dictGet m k

/-- Assignment `d[k] = v` on a Python dict: replaces the value in place when
the key exists (keeping the binding position), otherwise appends the new
binding at the end, exactly the insertion-order behaviour of dicts. -/
def dictInsert : List (String × String) → String → String → List (String × String)
  | [], k, v => [(k, v)]
  | p :: m, k, v => if p.1 == k then (k, v) :: m else p :: dictInsert m k v

/-- `d.update(other)` on Python dicts: inserts the bindings of `other` in
iteration order, overwriting values of keys already present. -/
def dictUpdate (m other : List (String × String)) : List (String × String) :=
  other.foldl (fun acc p => dictInsert acc p.1 p.2) m

/-- The loop body of `filter_characters_to_process`: keep the characters
whose codepoint is not a key of `descriptions`, in catalog order. -/
def filter_characters_to_process (characters : List CharacterRecord)
    (descriptions : List (String × String)) : List CharacterRecord :=
  characters.foldl
    (fun characters_to_process character_data =>
      if dictContains descriptions character_data.code then characters_to_process
      else characters_to_process ++ [character_data])
    []

/-- Subscripting `item[key]` on an optional JSON field: a missing key raises
`KeyError`. -/
def getKey (field : Option String) (key : String) : Except String String :=
  match field with
  | some v => Except.ok v
  | none => Except.error ("KeyError: " ++ key)

/-- The stringification loop of `get_system_prompt`: one line per record,
built by subscripting `char`, `code`, `name` and `block`. -/
def stringify_items : List CharacterRecord → Except String String
  | [] => Except.ok ""
  | item :: rest => do
    let ch ← getKey item.char "char"
    let nm ← getKey item.name "name"
    let bl ← getKey item.block "block"
    let rest_s ← stringify_items rest
    pure ("- " ++ ch ++ " (Codepoint: " ++ item.code ++ ", Name: " ++ nm ++
      ", Block: " ++ bl ++ ")\n" ++ rest_s)

/-- The fixed instruction template of `get_system_prompt`, up to the point
where the stringified character data is interpolated. -/
def prompt_header : String :=
  "You are an expert typographer and writer. Provide short, descriptive, and engaging explanations for the following unicode characters.\n\nThe descriptions should:\n\n1. Describe appearance if relevant.\n2. Explain what it symbolizes or represents.\n3. Mention common usage in digital communication, UI, or text if applicable.\n4. Be concise (1-2 sentences).\n\nInput characters:\n"

/-- `get_system_prompt`: renders each record as a line and interpolates the
joined lines into the instruction template.  Subscripting a missing field
raises `KeyError`, modelled as `Except.error`. -/
def get_system_prompt (characters_data : List CharacterRecord) : Except String String := do
  let stringified_data ← stringify_items characters_data
  pure (prompt_header ++ stringified_data ++ "\n")

/-- The `tenacity.wait_exponential(multiplier, min, max)` wait for a given
attempt number: `max(minW, min(multiplier * 2 ^ attempt, maxW))` seconds. -/
def wait_exponential (multiplier minW maxW attempt : Nat) : Nat :=
  max minW (min (multiplier * 2 ^ attempt) maxW)

/-- One outcome of the whole retry loop: the final result, the number of
attempts made, and the list of backoff waits (in seconds) slept between
attempts. -/
def retryExec {α : Type} (attempt : Nat → Except String α) :
    Nat → Nat → Except String α × Nat × List Nat
  | _, 0 => (Except.error "RetryError", 0, [])
  | n, fuel + 1 =>
    match attempt n with
    | Except.ok a => (Except.ok a, 1, [])
    | Except.error e =>
      if fuel = 0 then (Except.error ("RetryError: " ++ e), 1, [])
      else
        let w := wait_exponential 1 2 60 n
        let (r, k, ws) := retryExec attempt (n + 1) fuel
        (r, k + 1, w :: ws)

/-- `generate_descriptions_batch`, decorated with
`retry(stop=stop_after_attempt(5), wait=wait_exponential(multiplier=1, min=2, max=60))`:
runs up to 5 attempts of the remote call plus response validation
(abstracted as the per-attempt oracle), sleeping the exponential wait
between consecutive attempts; exhaustion raises `RetryError`. -/
def generate_descriptions_batch {α : Type} (attempt : Nat → Except String α) :
    Except String α × Nat × List Nat :=
  retryExec attempt 1 5

/-- The result-dictionary construction loop of `process_batch`:
`result[item.codepoint] = item.description` over the returned descriptions. -/
def result_of_batch (batch_descriptions : List GlyphDescription) : List (String × String) :=
  batch_descriptions.foldl (fun result item => dictInsert result item.codepoint item.description) []

/-- `process_batch`: builds the system prompt for the batch, performs the
retried fetch, and packages the result dictionary with the batch index.
No exception is caught here; a prompt-building error or retry exhaustion
propagates. -/
def process_batch (oracle : String → Nat → Except String (List GlyphDescription))
    (batch_data : Nat × List CharacterRecord) : Except String (Nat × List (String × String)) := do
  let system_prompt ← get_system_prompt batch_data.2
  let batch_descriptions ← (generate_descriptions_batch (oracle system_prompt)).1
  pure (batch_data.1, result_of_batch batch_descriptions)

/-- The batch construction loop of `generate_parallel`:
`for i in range(0, len(l), batch_size): batches.append((i, l[i:i+batch_size]))`,
written with explicit fuel so that it stays a structural recursion. -/
def make_batches_go (batch_size : Nat) :
    Nat → List CharacterRecord → Nat → List (Nat × List CharacterRecord)
  | 0, _, _ => []
  | fuel + 1, l, i =>
    if l.isEmpty then []
    else (i, l.take batch_size) :: make_batches_go batch_size fuel (l.drop batch_size) (i + batch_size)

/-- Partition the work list into contiguous slices of `batch_size` (the last
slice may be shorter), each tagged with its starting offset. -/
def make_batches (l : List CharacterRecord) (batch_size : Nat) : List (Nat × List CharacterRecord) :=
  if batch_size = 0 then [] else make_batches_go batch_size l.length l 0

/-- Sequencing of batch computations as performed by
`list(tqdm(executor.map(...)))`: results are collected in batch order and
the first raised exception propagates, aborting the collection. -/
def mapBatches (f : Nat × List CharacterRecord → Except String (Nat × List (String × String))) :
    List (Nat × List CharacterRecord) → Except String (List (Nat × List (String × String)))
  | [] => Except.ok []
  | b :: bs =>
    match f b with
    | Except.error e => Except.error e
    | Except.ok r =>
      match mapBatches f bs with
      | Except.error e => Except.error e
      | Except.ok rs => Except.ok (r :: rs)

/-- The merge loop of `generate_parallel`: a batch result with a non-empty
dictionary is merged via `descriptions.update(...)`; an empty one produces
a warning naming the batch index. -/
def merge_results (descriptions : List (String × String))
    (results : List (Nat × List (String × String))) :
    List (String × String) × List Nat :=
  results.foldl
    (fun acc result =>
      if result.2.isEmpty then (acc.1, acc.2 ++ [result.1])
      else (dictUpdate acc.1 result.2, acc.2))
    (descriptions, [])

/-- `generate_parallel`: partitions the work into batches, processes every
batch (any batch failure propagates and aborts the run before the merge
loop), then merges the results into the accumulated description map and
returns it together with the emitted warning indices. -/
def generate_parallel (oracle : String → Nat → Except String (List GlyphDescription))
    (characters_to_process : List CharacterRecord)
    (descriptions : List (String × String)) (batch_size : Nat) :
    Except String (List (String × String) × List Nat) := do
  let batches := make_batches characters_to_process batch_size
  let results ← mapBatches (process_batch oracle) batches
  pure (merge_results descriptions results)

/-- Code-point lexicographic comparison of character lists, the order Python
uses to compare strings. -/
def charListLt : List Char → List Char → Bool
  | _, [] => false
  | [], _ :: _ => true
  | a :: as, b :: bs =>
    if a.toNat < b.toNat then true
    else if b.toNat < a.toNat then false
    else charListLt as bs

/-- Python `a < b` on strings. -/
def strLt (a b : String) : Bool := charListLt a.data b.data

/-- Python `a <= b` on strings. -/
def strLe (a b : String) : Bool := ! strLt b a

/-- Python tuple comparison `(k1, v1) <= (k2, v2)` as used by
`sorted(descriptions.items())`. -/
def pairLe (p q : String × String) : Bool :=
  if strLt p.1 q.1 then true
  else if strLt q.1 p.1 then false
  else strLe p.2 q.2

/-- Insertion of one item into an already sorted run (the sort itself is
order-equivalent to the stable `sorted` builtin because `pairLe` is total). -/
def insertPair (p : String × String) : List (String × String) → List (String × String)
  | [] => [p]
  | q :: qs => if pairLe p q then p :: q :: qs else q :: insertPair p qs

/-- `save_sorted_descriptions`: the content written to the descriptions
file, `dict(sorted(descriptions.items()))`. -/
def save_sorted_descriptions (descriptions : List (String × String)) : List (String × String) :=
  descriptions.foldr insertPair []

/-- Numeric value of an uppercase hex digit. -/
def hexDigitVal (c : Char) : Nat :=
  if c.toNat ≥ 65 then c.toNat - 55 else c.toNat - 48

/-- Numeric value of an uppercase hexadecimal codepoint string. -/
def hexVal (s : String) : Nat :=
  s.data.foldl (fun acc c => 16 * acc + hexDigitVal c) 0

/-- The pipeline body of `main` after a catalog and description store have
been loaded: filter pending work, return early (zero remote calls, store
untouched) when nothing is pending, otherwise run the orchestrator with
`batch_size = 25` and sort-and-save the merged map.  The second component
counts remote generation calls (one per dispatched batch). -/
def main_run (oracle : String → Nat → Except String (List GlyphDescription))
    (characters : List CharacterRecord) (descriptions : List (String × String)) :
    Except String (List (String × String) × Nat) :=
  let characters_to_process := filter_characters_to_process characters descriptions
  if characters_to_process.isEmpty then Except.ok (descriptions, 0)
  else
    match generate_parallel oracle characters_to_process descriptions 25 with
    | Except.error e => Except.error e
    | Except.ok (merged, _) =>
        Except.ok (save_sorted_descriptions merged, (make_batches characters_to_process 25).length)

/-! ### Concrete inputs used to evaluate the model -/

/-- The catalog record for U+0041 LATIN CAPITAL LETTER A. -/
def recA : CharacterRecord :=
  ⟨"0041", some "A", some "LATIN CAPITAL LETTER A", some "Basic Latin"⟩

/-- A second catalog record carrying the same codepoint as `recA`. -/
def recA2 : CharacterRecord :=
  ⟨"0041", some "A", some "DUPLICATED LETTER A", some "Basic Latin"⟩

/-- The catalog record for U+0042 LATIN CAPITAL LETTER B. -/
def recB : CharacterRecord :=
  ⟨"0042", some "B", some "LATIN CAPITAL LETTER B", some "Basic Latin"⟩

/-- A catalog record whose optional `name` field is absent. -/
def recNoName : CharacterRecord :=
  ⟨"0041", some "A", none, some "Basic Latin"⟩

/-- The rendered prompt of the singleton batch `[recA]`. -/
def promptA : String :=
  match get_system_prompt [recA] with
  | Except.ok s => s
  | Except.error _ => ""

/-- An oracle whose every attempt fails with a network error. -/
def oracleFail (_ : String) (_ : Nat) : Except String (List GlyphDescription) :=
  Except.error "network error"

/-- An oracle that exhausts retries exactly on the batch containing `recA`
and answers every other batch with a description of U+0042. -/
def oracleCE (p : String) (_ : Nat) : Except String (List GlyphDescription) :=
  if p = promptA then Except.error "boom" else Except.ok [⟨"0042", "desc B"⟩]

/-- An oracle that always answers with a description for U+0041, a
codepoint outside any dispatched batch. -/
def oracleC7 (_ : String) (_ : Nat) : Except String (List GlyphDescription) :=
  Except.ok [⟨"0041", "new"⟩]

/-- An oracle that always answers with a description of U+0042. -/
def oracleOkB (_ : String) (_ : Nat) : Except String (List GlyphDescription) :=
  Except.ok [⟨"0042", "desc B"⟩]

/-- An oracle that always answers with an empty description list. -/
def oracleEmpty (_ : String) (_ : Nat) : Except String (List GlyphDescription) :=
  Except.ok []

/-! ### Association-list dictionary lemmas -/

/-- Last binding of a key in a result list: later bindings shadow earlier
ones, matching the overwrite behaviour of repeated dict assignment. -/
def lastVal : List (String × String) → String → Option String
  | [], _ => none
  | p :: r, k =>
    match lastVal r k with
    | some v => some v
    | none => if p.1 == k then some p.2 else none

theorem dictGet_insert (m : List (String × String)) (k v k' : String) :
    dictGet (dictInsert m k v) k' = if k == k' then some v else dictGet m k' := by
  induction m with
  | nil => simp [dictInsert, dictGet]
  | cons p m ih =>
    by_cases hpk : p.1 = k
    · by_cases hkk : k = k' <;> simp [dictInsert, dictGet, hpk, hkk]
    · by_cases hpk' : p.1 = k'
      · have hkk : ¬ k = k' := fun h => hpk (h ▸ hpk')
        simp [dictInsert, dictGet, hpk, hpk', hkk, Ne.symm hkk]
      · by_cases hkk : k = k'
        · subst hkk
          simp [dictInsert, dictGet, hpk, hpk', ih]
        · simp [dictInsert, dictGet, hpk, hpk', hkk, ih]

theorem dictContains_eq_isSome (m : List (String × String)) (k : String) :
    dictContains m k = (dictGet m k).isSome := by
  induction m with
  | nil => simp [dictContains, dictGet]
  | cons p m ih =>
    by_cases hpk : p.1 = k <;> simp [dictContains, dictGet, hpk, ih]

theorem dictContains_insert (m : List (String × String)) (k v k' : String) :
    dictContains (dictInsert m k v) k' = ((k == k') || dictContains m k') := by
  by_cases hkk : k = k' <;>
    simp [dictContains_eq_isSome, dictGet_insert, hkk]

theorem dictUpdate_nil (m : List (String × String)) : dictUpdate m [] = m := rfl

theorem dictUpdate_cons (m : List (String × String)) (p : String × String)
    (r : List (String × String)) :
    dictUpdate m (p :: r) = dictUpdate (dictInsert m p.1 p.2) r := rfl

theorem dictGet_update (m r : List (String × String)) (k : String) :
    dictGet (dictUpdate m r) k =
      match lastVal r k with
      | some v => some v
      | none => dictGet m k := by
  induction r generalizing m with
  | nil => simp [dictUpdate, lastVal]
  | cons p r ih =>
    rw [dictUpdate_cons, ih]
    cases hl : lastVal r k with
    | some v => simp [lastVal, hl]
    | none =>
      simp only [lastVal, hl, dictGet_insert]
      by_cases hpk : p.1 = k <;> simp [hpk]

theorem dictContains_update (m r : List (String × String)) (k : String) :
    dictContains (dictUpdate m r) k = ((lastVal r k).isSome || dictContains m k) := by
  rw [dictContains_eq_isSome, dictGet_update]
  cases hl : lastVal r k with
  | some v => simp
  | none => simp [dictContains_eq_isSome]

theorem lastVal_none_of_no_key (r : List (String × String)) (k : String)
    (h : ∀ p ∈ r, ¬ p.1 = k) : lastVal r k = none := by
  induction r with
  | nil => rfl
  | cons p r ih =>
    have hr : lastVal r k = none := ih (fun q hq => h q (List.mem_cons_of_mem p hq))
    simp [lastVal, hr, h p (List.mem_cons_self p r)]

theorem lastVal_some_mem_key (r : List (String × String)) (k : String) (v : String)
    (h : lastVal r k = some v) : k ∈ r.map Prod.fst := by
  by_contra hk
  rw [lastVal_none_of_no_key r k (fun p hp hpk => hk (hpk ▸ List.mem_map_of_mem Prod.fst hp))] at h
  exact Option.noConfusion h

/-! ### Work-filter and batching lemmas -/

theorem filter_characters_foldl (characters : List CharacterRecord)
    (descriptions : List (String × String)) (acc : List CharacterRecord) :
    characters.foldl
      (fun characters_to_process character_data =>
        if dictContains descriptions character_data.code then characters_to_process
        else characters_to_process ++ [character_data]) acc =
    acc ++ characters.filter (fun c => ! dictContains descriptions c.code) := by
  induction characters generalizing acc with
  | nil => simp
  | cons c cs ih =>
    by_cases hc : dictContains descriptions c.code = true
    · simp [List.foldl_cons, hc, ih, List.filter_cons]
    · simp only [Bool.not_eq_true] at hc
      simp [List.foldl_cons, hc, ih, List.filter_cons]

theorem filter_characters_eq (characters : List CharacterRecord)
    (descriptions : List (String × String)) :
    filter_characters_to_process characters descriptions =
      characters.filter (fun c => ! dictContains descriptions c.code) := by
  simpa using filter_characters_foldl characters descriptions []

theorem filter_characters_not_described (characters : List CharacterRecord)
    (descriptions : List (String × String)) (c : CharacterRecord)
    (hc : c ∈ filter_characters_to_process characters descriptions) :
    dictContains descriptions c.code = false := by
  rw [filter_characters_eq] at hc
  simpa using List.of_mem_filter hc

theorem make_batches_go_flatten (batch_size : Nat) (hbs : 0 < batch_size) :
    ∀ (fuel : Nat) (l : List CharacterRecord) (i : Nat), l.length ≤ fuel →
      ((make_batches_go batch_size fuel l i).map Prod.snd).flatten = l := by
  intro fuel
  induction fuel with
  | zero =>
    intro l i hl
    have : l = [] := List.eq_nil_of_length_eq_zero (Nat.le_zero.mp hl)
    subst this
    rfl
  | succ fuel ih =>
    intro l i hl
    by_cases hemp : l.isEmpty
    · rw [List.isEmpty_iff] at hemp
      subst hemp
      rfl
    · have hne : l.isEmpty = false := by simpa using hemp
      have hlen : (l.drop batch_size).length ≤ fuel := by
        rw [List.length_drop]
        have hpos : 0 < l.length := by
          cases l with
          | nil => simp at hne
          | cons a as => simp
        omega
      simp only [make_batches_go, hne, Bool.false_eq_true, if_false, List.map_cons,
        List.flatten_cons, ih (l.drop batch_size) (i + batch_size) hlen]
      exact List.take_append_drop batch_size l

theorem make_batches_flatten (l : List CharacterRecord) (batch_size : Nat)
    (hbs : 0 < batch_size) :
    ((make_batches l batch_size).map Prod.snd).flatten = l := by
  have : ¬ batch_size = 0 := Nat.pos_iff_ne_zero.mp hbs
  rw [make_batches, if_neg this]
  exact make_batches_go_flatten batch_size hbs l.length l 0 (Nat.le_refl _)

theorem mem_of_mem_batch (l : List CharacterRecord) (batch_size : Nat)
    (bd : Nat × List CharacterRecord) (hbd : bd ∈ make_batches l batch_size)
    (c : CharacterRecord) (hc : c ∈ bd.2) : c ∈ l := by
  by_cases hbs : batch_size = 0
  · rw [make_batches, if_pos hbs] at hbd
    exact absurd hbd (List.not_mem_nil bd)
  · have hflat := make_batches_flatten l batch_size (Nat.pos_of_ne_zero hbs)
    rw [← hflat]
    exact List.mem_flatten.mpr ⟨bd.2, List.mem_map_of_mem Prod.snd hbd, hc⟩

/-! ### Batch sequencing and merge lemmas -/

theorem mapBatches_error_of_mem
    (f : Nat × List CharacterRecord → Except String (Nat × List (String × String)))
    (batches : List (Nat × List CharacterRecord)) (b : Nat × List CharacterRecord)
    (hb : b ∈ batches) (e : String) (he : f b = Except.error e) :
    ∃ e2, mapBatches f batches = Except.error e2 := by
  induction batches with
  | nil => exact absurd hb (List.not_mem_nil b)
  | cons b0 bs ih =>
    rcases List.mem_cons.mp hb with hb0 | hbs
    · subst hb0
      exact ⟨e, by simp [mapBatches, he]⟩
    · cases hf0 : f b0 with
      | error e0 => exact ⟨e0, by simp [mapBatches, hf0]⟩
      | ok r0 =>
        obtain ⟨e2, he2⟩ := ih hbs
        exact ⟨e2, by simp [mapBatches, hf0, he2]⟩

theorem mapBatches_ok_forall
    (f : Nat × List CharacterRecord → Except String (Nat × List (String × String)))
    (batches : List (Nat × List CharacterRecord))
    (results : List (Nat × List (String × String)))
    (h : mapBatches f batches = Except.ok results) :
    List.Forall₂ (fun b r => f b = Except.ok r) batches results := by
  induction batches generalizing results with
  | nil =>
    simp only [mapBatches] at h
    cases h
    exact List.Forall₂.nil
  | cons b0 bs ih =>
    cases hf0 : f b0 with
    | error e0 => simp [mapBatches, hf0] at h
    | ok r0 =>
      cases hrest : mapBatches f bs with
      | error e2 => simp [mapBatches, hf0, hrest] at h
      | ok rs =>
        simp only [mapBatches, hf0, hrest] at h
        cases h
        exact List.Forall₂.cons hf0 (ih rs hrest)

theorem merge_results_foldl (results : List (Nat × List (String × String)))
    (descriptions : List (String × String)) (warns : List Nat) :
    results.foldl
      (fun acc result =>
        if result.2.isEmpty then (acc.1, acc.2 ++ [result.1])
        else (dictUpdate acc.1 result.2, acc.2)) (descriptions, warns) =
    (results.foldl (fun acc result => dictUpdate acc result.2) descriptions,
      warns ++ (results.filter (fun result => result.2.isEmpty)).map Prod.fst) := by
  induction results generalizing descriptions warns with
  | nil => simp
  | cons r rs ih =>
    simp only [List.foldl_cons, List.filter_cons]
    by_cases hr : r.2.isEmpty = true
    · have hnil : r.2 = [] := List.isEmpty_iff.mp hr
      rw [if_pos hr, hnil, dictUpdate_nil, ih descriptions (warns ++ [r.1])]
      simp
    · rw [if_neg hr, ih (dictUpdate descriptions r.2) warns,
        if_neg (by simpa using hr)]

theorem merge_results_eq (descriptions : List (String × String))
    (results : List (Nat × List (String × String))) :
    merge_results descriptions results =
      (results.foldl (fun acc result => dictUpdate acc result.2) descriptions,
        (results.filter (fun result => result.2.isEmpty)).map Prod.fst) := by
  rw [merge_results, merge_results_foldl results descriptions []]
  rw [List.nil_append]

theorem generate_parallel_ok (oracle : String → Nat → Except String (List GlyphDescription))
    (characters_to_process : List CharacterRecord) (descriptions : List (String × String))
    (batch_size : Nat) (results : List (Nat × List (String × String)))
    (h : mapBatches (process_batch oracle) (make_batches characters_to_process batch_size) =
      Except.ok results) :
    generate_parallel oracle characters_to_process descriptions batch_size =
      Except.ok (merge_results descriptions results) := by
  simp [generate_parallel, h]

theorem generate_parallel_error (oracle : String → Nat → Except String (List GlyphDescription))
    (characters_to_process : List CharacterRecord) (descriptions : List (String × String))
    (batch_size : Nat) (e : String)
    (h : mapBatches (process_batch oracle) (make_batches characters_to_process batch_size) =
      Except.error e) :
    generate_parallel oracle characters_to_process descriptions batch_size = Except.error e := by
  simp [generate_parallel, h]

/-! ### Lexicographic order lemmas -/

theorem char_toNat_inj {c d : Char} (h : c.toNat = d.toNat) : c = d := by
  have hv : c.val = d.val := UInt32.eq_of_val_eq (Fin.eq_of_val_eq h)
  exact Char.eq_of_val_eq hv

theorem charListLt_asymm : ∀ a b : List Char, charListLt a b = true → charListLt b a = false := by
  intro a
  induction a with
  | nil =>
    intro b h
    cases b with
    | nil => simp [charListLt] at h
    | cons y ys => rfl
  | cons x xs ih =>
    intro b h
    cases b with
    | nil => simp [charListLt] at h
    | cons y ys =>
      simp only [charListLt] at h ⊢
      by_cases hxy : x.toNat < y.toNat
      · have hyx : ¬ y.toNat < x.toNat := by omega
        simp [hxy, hyx]
      · by_cases hyx : y.toNat < x.toNat
        · simp [hxy, hyx] at h
        · simp only [hxy, hyx, if_false] at h ⊢
          simp [hxy, hyx, ih ys h]

theorem charListLt_irrefl (a : List Char) : charListLt a a = false := by
  by_cases h : charListLt a a = true
  · have := charListLt_asymm a a h
    rw [this] at h
    exact absurd h (by simp)
  · simpa using h

theorem charListLt_trans :
    ∀ a b c : List Char, charListLt a b = true → charListLt b c = true →
      charListLt a c = true := by
  intro a
  induction a with
  | nil =>
    intro b c hab hbc
    cases b with
    | nil => simp [charListLt] at hab
    | cons y ys =>
      cases c with
      | nil => simp [charListLt] at hbc
      | cons z zs => rfl
  | cons x xs ih =>
    intro b c hab hbc
    cases b with
    | nil => simp [charListLt] at hab
    | cons y ys =>
      cases c with
      | nil => simp [charListLt] at hbc
      | cons z zs =>
        simp only [charListLt] at hab hbc ⊢
        by_cases hxy : x.toNat < y.toNat
        · by_cases hyz : y.toNat < z.toNat
          · simp [show x.toNat < z.toNat by omega]
          · by_cases hzy : z.toNat < y.toNat
            · simp [hyz, hzy] at hbc
            · have hyzeq : y.toNat = z.toNat := by omega
              simp [show x.toNat < z.toNat by omega]
        · by_cases hyx : y.toNat < x.toNat
          · simp [hxy, hyx] at hab
          · have hxyeq : x.toNat = y.toNat := by omega
            by_cases hyz : y.toNat < z.toNat
            · simp [show x.toNat < z.toNat by omega]
            · by_cases hzy : z.toNat < y.toNat
              · simp [hyz, hzy] at hbc
              · simp only [hxy, hyx, if_false] at hab
                simp only [hyz, hzy, if_false] at hbc
                have hxz : ¬ x.toNat < z.toNat := by omega
                have hzx : ¬ z.toNat < x.toNat := by omega
                simp [hxz, hzx, ih ys zs hab hbc]

theorem charListLt_connex :
    ∀ a b : List Char, charListLt a b = false → charListLt b a = false → a = b := by
  intro a
  induction a with
  | nil =>
    intro b hab hba
    cases b with
    | nil => rfl
    | cons y ys => simp [charListLt] at hab
  | cons x xs ih =>
    intro b hab hba
    cases b with
    | nil => simp [charListLt] at hba
    | cons y ys =>
      simp only [charListLt] at hab hba
      by_cases hxy : x.toNat < y.toNat
      · simp [hxy] at hab
      · by_cases hyx : y.toNat < x.toNat
        · simp [hxy, hyx] at hab
          simp [hyx] at hba
        · simp only [hxy, hyx, if_false] at hab hba
          have hx : x = y := char_toNat_inj (by omega)
          rw [hx, ih ys hab hba]

theorem charListLt_negtrans (a b c : List Char) (hab : charListLt a b = false)
    (hbc : charListLt b c = false) : charListLt a c = false := by
  by_contra hac
  have hac : charListLt a c = true := by simpa using hac
  by_cases hba : charListLt b a = true
  · have := charListLt_trans b a c hba hac
    rw [this] at hbc
    exact absurd hbc (by simp)
  · have hba : charListLt b a = false := by simpa using hba
    have : a = b := charListLt_connex a b hab hba
    rw [this] at hac
    rw [hac] at hbc
    exact absurd hbc (by simp)

theorem string_data_eq {a b : String} (h : a.data = b.data) : a = b := by
  cases a
  cases b
  exact congrArg String.mk h

theorem pairLe_total (p q : String × String) : pairLe p q = true ∨ pairLe q p = true := by
  unfold pairLe strLe strLt
  by_cases h1 : charListLt p.1.data q.1.data = true
  · left
    simp [h1]
  · have h1 : charListLt p.1.data q.1.data = false := by simpa using h1
    by_cases h2 : charListLt q.1.data p.1.data = true
    · right
      simp [h2]
    · have h2 : charListLt q.1.data p.1.data = false := by simpa using h2
      by_cases h3 : charListLt q.2.data p.2.data = true
      · right
        simp [h1, h2, charListLt_asymm q.2.data p.2.data h3]
      · left
        simp only [h1, h2, Bool.not_eq_true] at h3 ⊢
        simp [h1, h2, h3]

theorem pairLe_trans (p q r : String × String) (hpq : pairLe p q = true)
    (hqr : pairLe q r = true) : pairLe p r = true := by
  unfold pairLe strLe strLt at hpq hqr ⊢
  by_cases h1 : charListLt p.1.data q.1.data = true
  · by_cases h2 : charListLt q.1.data r.1.data = true
    · simp [charListLt_trans p.1.data q.1.data r.1.data h1 h2]
    · have h2 : charListLt q.1.data r.1.data = false := by simpa using h2
      by_cases h3 : charListLt r.1.data q.1.data = true
      · simp [h2, h3] at hqr
      · have h3 : charListLt r.1.data q.1.data = false := by simpa using h3
        have heq : q.1 = r.1 := string_data_eq (charListLt_connex q.1.data r.1.data h2 h3)
        rw [← heq]
        simp [h1]
  · have h1 : charListLt p.1.data q.1.data = false := by simpa using h1
    by_cases h2 : charListLt q.1.data p.1.data = true
    · simp [h1, h2] at hpq
    · have h2 : charListLt q.1.data p.1.data = false := by simpa using h2
      have heq : p.1 = q.1 := string_data_eq (charListLt_connex p.1.data q.1.data h1 h2)
      have hpq2 : charListLt q.2.data p.2.data = false := by
        simpa [h1, h2] using hpq
      by_cases h3 : charListLt q.1.data r.1.data = true
      · rw [heq]
        simp [h3]
      · have h3 : charListLt q.1.data r.1.data = false := by simpa using h3
        by_cases h4 : charListLt r.1.data q.1.data = true
        · simp [h3, h4] at hqr
        · have h4 : charListLt r.1.data q.1.data = false := by simpa using h4
          have hqr2 : charListLt r.2.data q.2.data = false := by
            simpa [h3, h4] using hqr
          have h5 : charListLt p.1.data r.1.data = false := by
            rw [heq]
            exact h3
          have h6 : charListLt r.1.data p.1.data = false := by
            rw [heq]
            exact h4
          have h7 : charListLt r.2.data p.2.data = false :=
            charListLt_negtrans r.2.data q.2.data p.2.data hqr2 hpq2
          simp [h5, h6, h7]

/-! ### Insertion sort lemmas for the finalizer -/

theorem insertPair_perm (p : String × String) (l : List (String × String)) :
    List.Perm (insertPair p l) (p :: l) := by
  induction l with
  | nil => exact List.Perm.refl _
  | cons q qs ih =>
    by_cases h : pairLe p q = true
    · simp [insertPair, h]
    · have h2 : pairLe p q = false := by simpa using h
      simp only [insertPair, h2, Bool.false_eq_true, if_false]
      exact List.Perm.trans (List.Perm.cons q ih) (List.Perm.swap p q qs)

theorem mem_insertPair (p x : String × String) (l : List (String × String))
    (hx : x ∈ insertPair p l) : x = p ∨ x ∈ l := by
  have := (insertPair_perm p l).mem_iff.mp hx
  simpa using this

theorem pairwise_insertPair (p : String × String) (l : List (String × String))
    (h : l.Pairwise (fun x y => pairLe x y = true)) :
    (insertPair p l).Pairwise (fun x y => pairLe x y = true) := by
  induction l with
  | nil => simp [insertPair]
  | cons q qs ih =>
    rcases List.pairwise_cons.mp h with ⟨hq, hqs⟩
    by_cases hpq : pairLe p q = true
    · simp only [insertPair, hpq, if_true]
      refine List.pairwise_cons.mpr ⟨?_, h⟩
      intro x hx
      rcases List.mem_cons.mp hx with hxq | hxqs
      · rw [hxq]
        exact hpq
      · exact pairLe_trans p q x hpq (hq x hxqs)
    · have hpq2 : pairLe p q = false := by simpa using hpq
      simp only [insertPair, hpq2, Bool.false_eq_true, if_false]
      refine List.pairwise_cons.mpr ⟨?_, ih hqs⟩
      intro x hx
      rcases mem_insertPair p x qs hx with hxp | hxqs
      · rcases pairLe_total p q with hl | hr
        · exact absurd hl (by simp [hpq2])
        · rw [hxp]
          exact hr
      · exact hq x hxqs

theorem save_sorted_perm (m : List (String × String)) :
    List.Perm (save_sorted_descriptions m) m := by
  induction m with
  | nil => exact List.Perm.refl _
  | cons p ms ih =>
    have : save_sorted_descriptions (p :: ms) = insertPair p (save_sorted_descriptions ms) := rfl
    rw [this]
    exact List.Perm.trans (insertPair_perm p _) (List.Perm.cons p ih)

theorem save_sorted_pairwise (m : List (String × String)) :
    (save_sorted_descriptions m).Pairwise (fun x y => pairLe x y = true) := by
  induction m with
  | nil => simp [save_sorted_descriptions]
  | cons p ms ih => exact pairwise_insertPair p _ ih

theorem pairLe_strict (p q : String × String) (hle : pairLe p q = true)
    (hne : p.1 ≠ q.1) : strLt p.1 q.1 = true := by
  unfold pairLe at hle
  by_cases h1 : strLt p.1 q.1 = true
  · exact h1
  · have h1 : charListLt p.1.data q.1.data = false := by simpa [strLt] using h1
    by_cases h2 : strLt q.1 p.1 = true
    · rw [if_neg (by simp [strLt, h1]), if_pos h2] at hle
      exact absurd hle (by simp)
    · have h2 : charListLt q.1.data p.1.data = false := by simpa [strLt] using h2
      exact absurd (string_data_eq (charListLt_connex p.1.data q.1.data h1 h2)) hne

theorem save_sorted_strict (m : List (String × String))
    (h : (m.map Prod.fst).Nodup) :
    (save_sorted_descriptions m).Pairwise (fun p q => strLt p.1 q.1 = true) := by
  have hperm : List.Perm ((save_sorted_descriptions m).map Prod.fst) (m.map Prod.fst) :=
    (save_sorted_perm m).map Prod.fst
  have hnodup : ((save_sorted_descriptions m).map Prod.fst).Nodup := hperm.nodup_iff.mpr h
  have hne : (save_sorted_descriptions m).Pairwise (fun p q => p.1 ≠ q.1) :=
    (List.pairwise_map).mp hnodup
  have hle := save_sorted_pairwise m
  exact (hle.and hne).imp (fun hpq => pairLe_strict _ _ hpq.1 hpq.2)

/-! ### Prompt builder lemmas -/

theorem except_bind_ok {α β : Type} (a : α) (f : α → Except String β) :
    (Except.ok a >>= f) = f a := rfl

theorem except_bind_error {α β : Type} (e : String) (f : α → Except String β) :
    ((Except.error e : Except String α) >>= f) = Except.error e := rfl

theorem except_map_ok {α β : Type} (f : α → β) (a : α) :
    (f <$> (Except.ok a : Except String α)) = Except.ok (f a) := rfl

theorem except_map_error {α β : Type} (f : α → β) (e : String) :
    (f <$> (Except.error e : Except String α)) = Except.error e := rfl

theorem stringify_items_ok (l : List CharacterRecord)
    (h : ∀ r ∈ l, r.char.isSome ∧ r.name.isSome ∧ r.block.isSome) :
    ∃ s, stringify_items l = Except.ok s := by
  induction l with
  | nil => exact ⟨"", rfl⟩
  | cons item rest ih =>
    obtain ⟨hch, hnm, hbl⟩ := h item (List.mem_cons_self item rest)
    obtain ⟨ch, hch⟩ := Option.isSome_iff_exists.mp hch
    obtain ⟨nm, hnm⟩ := Option.isSome_iff_exists.mp hnm
    obtain ⟨bl, hbl⟩ := Option.isSome_iff_exists.mp hbl
    obtain ⟨s, hs⟩ := ih (fun r hr => h r (List.mem_cons_of_mem item hr))
    refine ⟨"- " ++ ch ++ " (Codepoint: " ++ item.code ++ ", Name: " ++ nm ++
      ", Block: " ++ bl ++ ")\n" ++ s, ?_⟩
    simp [stringify_items, getKey, hch, hnm, hbl, hs, except_bind_ok]

theorem stringify_items_error (l : List CharacterRecord)
    (h : ∃ r ∈ l, r.char = none ∨ r.name = none ∨ r.block = none) :
    ∃ e, stringify_items l = Except.error e := by
  induction l with
  | nil => simp at h
  | cons item rest ih =>
    cases hch : item.char with
    | none =>
      exact ⟨"KeyError: char", by
        simp [stringify_items, getKey, hch, except_bind_error]⟩
    | some ch =>
      cases hnm : item.name with
      | none =>
        exact ⟨"KeyError: name", by
          simp [stringify_items, getKey, hch, hnm, except_bind_ok, except_bind_error]⟩
      | some nm =>
        cases hbl : item.block with
        | none =>
          exact ⟨"KeyError: block", by
            simp [stringify_items, getKey, hch, hnm, hbl, except_bind_ok, except_bind_error]⟩
        | some bl =>
          obtain ⟨r, hr, hropt⟩ := h
          rcases List.mem_cons.mp hr with hri | hrr
          · subst hri
            rcases hropt with h0 | h0 | h0 <;>
              simp [hch, hnm, hbl] at h0
          · obtain ⟨e, he⟩ := ih ⟨r, hrr, hropt⟩
            exact ⟨e, by
              simp [stringify_items, getKey, hch, hnm, hbl, he, except_bind_ok, except_map_error]⟩

theorem get_system_prompt_ok (l : List CharacterRecord)
    (h : ∀ r ∈ l, r.char.isSome ∧ r.name.isSome ∧ r.block.isSome) :
    ∃ s, get_system_prompt l = Except.ok s := by
  obtain ⟨s, hs⟩ := stringify_items_ok l h
  exact ⟨prompt_header ++ s ++ "\n", by simp [get_system_prompt, hs, except_bind_ok]⟩

theorem get_system_prompt_error (l : List CharacterRecord)
    (h : ∃ r ∈ l, r.char = none ∨ r.name = none ∨ r.block = none) :
    ∃ e, get_system_prompt l = Except.error e := by
  obtain ⟨e, he⟩ := stringify_items_error l h
  exact ⟨e, by simp [get_system_prompt, he, except_bind_error]⟩

/-! ### Retry lemmas -/

theorem retryExec_attempts_le {α : Type} (attempt : Nat → Except String α) :
    ∀ (fuel n : Nat), (retryExec attempt n fuel).2.1 ≤ fuel := by
  intro fuel
  induction fuel with
  | zero =>
    intro n
    simp [retryExec]
  | succ fuel ih =>
    intro n
    cases ha : attempt n with
    | ok a => simp [retryExec, ha]
    | error e =>
      by_cases hf : fuel = 0
      · simp [retryExec, ha, hf]
      · have := ih (n + 1)
        simp only [retryExec, ha, hf, if_false]
        cases hr : retryExec attempt (n + 1) fuel with
        | mk r rest =>
          cases rest with
          | mk k ws =>
            rw [hr] at this
            simpa using Nat.succ_le_succ this

/-! ### Additional helper lemmas for the claims -/

theorem dictContains_foldl_update (results : List (Nat × List (String × String)))
    (d : List (String × String)) (k : String) (h : dictContains d k = true) :
    dictContains (results.foldl (fun acc result => dictUpdate acc result.2) d) k = true := by
  induction results generalizing d with
  | nil => exact h
  | cons r rs ih =>
    refine ih (dictUpdate d r.2) ?_
    rw [dictContains_update]
    simp [h]

theorem dictGet_foldl_update_preserved (results : List (Nat × List (String × String)))
    (d : List (String × String)) (k : String)
    (h : ∀ r ∈ results, ∀ p ∈ r.2, ¬ p.1 = k) :
    dictGet (results.foldl (fun acc result => dictUpdate acc result.2) d) k = dictGet d k := by
  induction results generalizing d with
  | nil => rfl
  | cons r rs ih =>
    rw [List.foldl_cons, ih (dictUpdate d r.2) (fun q hq => h q (List.mem_cons_of_mem r hq)),
      dictGet_update,
      lastVal_none_of_no_key r.2 k (h r (List.mem_cons_self r rs))]

theorem generate_parallel_results (oracle : String → Nat → Except String (List GlyphDescription))
    (characters_to_process : List CharacterRecord) (descriptions : List (String × String))
    (batch_size : Nat) (m : List (String × String)) (w : List Nat)
    (hok : generate_parallel oracle characters_to_process descriptions batch_size =
      Except.ok (m, w)) :
    ∃ results,
      mapBatches (process_batch oracle) (make_batches characters_to_process batch_size) =
        Except.ok results ∧
      m = results.foldl (fun acc result => dictUpdate acc result.2) descriptions ∧
      w = (results.filter (fun result => result.2.isEmpty)).map Prod.fst := by
  cases hm : mapBatches (process_batch oracle) (make_batches characters_to_process batch_size) with
  | error e =>
    rw [generate_parallel_error oracle characters_to_process descriptions batch_size e hm] at hok
    exact Except.noConfusion hok
  | ok results =>
    rw [generate_parallel_ok oracle characters_to_process descriptions batch_size results hm,
      merge_results_eq] at hok
    have h2 : (results.foldl (fun acc result => dictUpdate acc result.2) descriptions,
        (results.filter (fun result => result.2.isEmpty)).map Prod.fst) = (m, w) :=
      Except.ok.inj hok
    exact ⟨results, rfl, (congrArg Prod.fst h2).symm, (congrArg Prod.snd h2).symm⟩

theorem generate_parallel_keys_monotone
    (oracle : String → Nat → Except String (List GlyphDescription))
    (characters_to_process : List CharacterRecord) (descriptions : List (String × String))
    (batch_size : Nat) (m : List (String × String)) (w : List Nat)
    (hok : generate_parallel oracle characters_to_process descriptions batch_size =
      Except.ok (m, w))
    (k : String) (hk : dictContains descriptions k = true) : dictContains m k = true := by
  obtain ⟨results, _, hm, _⟩ :=
    generate_parallel_results oracle characters_to_process descriptions batch_size m w hok
  rw [hm]
  exact dictContains_foldl_update results descriptions k hk

theorem generate_parallel_no_overwrite
    (oracle : String → Nat → Except String (List GlyphDescription))
    (characters : List CharacterRecord) (descriptions : List (String × String))
    (batch_size : Nat) (results : List (Nat × List (String × String)))
    (m : List (String × String)) (w : List Nat)
    (hmap : mapBatches (process_batch oracle)
        (make_batches (filter_characters_to_process characters descriptions) batch_size) =
      Except.ok results)
    (hkeys : ∀ r ∈ results, ∀ p ∈ r.2,
      p.1 ∈ (filter_characters_to_process characters descriptions).map CharacterRecord.code)
    (hok : generate_parallel oracle (filter_characters_to_process characters descriptions)
        descriptions batch_size = Except.ok (m, w))
    (k : String) (hk : dictContains descriptions k = true) :
    dictGet m k = dictGet descriptions k := by
  obtain ⟨results2, hmap2, hm, _⟩ :=
    generate_parallel_results oracle _ descriptions batch_size m w hok
  rw [hmap] at hmap2
  have hres : results2 = results := (Except.ok.inj hmap2).symm
  rw [hres] at hm
  rw [hm]
  refine dictGet_foldl_update_preserved results descriptions k ?_
  intro r hr p hp hpk
  obtain ⟨c, hc, hcode⟩ := List.mem_map.mp (hkeys r hr p hp)
  have hfalse := filter_characters_not_described characters descriptions c hc
  rw [hcode, hpk, hk] at hfalse
  exact Bool.noConfusion hfalse

/-! ### Claim theorems -/

set_option maxRecDepth 8000 in
/-- C1 counterexample: with two singleton batches and a fetch that exhausts
its retries on the first batch while the second batch would succeed, the
orchestrator does not catch the failure: `generate_parallel` raises, so no
final map is produced at all and the entries of the healthy batch are lost. -/
theorem generate_parallel_failed_batch_cex :
    generate_parallel oracleCE [recA, recB] [] 1 = Except.error "RetryError: boom" := by rfl

/-- C1 (amended): a batch fetch that exhausts retries is not caught at the
batch boundary; the exception propagates out of the orchestrator and aborts
the whole run before any merging, so no batch result is merged at all. -/
theorem generate_parallel_failed_batch_aborts
    (oracle : String → Nat → Except String (List GlyphDescription))
    (characters_to_process : List CharacterRecord) (descriptions : List (String × String))
    (batch_size : Nat) (bd : Nat × List CharacterRecord)
    (hbd : bd ∈ make_batches characters_to_process batch_size)
    (e : String) (he : process_batch oracle bd = Except.error e) :
    ∃ e2, generate_parallel oracle characters_to_process descriptions batch_size =
      Except.error e2 := by
  obtain ⟨e2, he2⟩ :=
    mapBatches_error_of_mem (process_batch oracle) _ bd hbd e he
  exact ⟨e2, generate_parallel_error oracle _ descriptions batch_size e2 he2⟩

set_option maxRecDepth 8000 in
/-- C1 witness: the amended theorem applied to the concrete failing run. -/
theorem generate_parallel_failed_batch_aborts_witness :
    ∃ e2, generate_parallel oracleCE [recA, recB] [] 1 = Except.error e2 :=
  generate_parallel_failed_batch_aborts oracleCE [recA, recB] [] 1 (0, [recA])
    (by decide) "RetryError: boom" (by rfl)

/-- C2 counterexample: a catalog record with a missing optional `name` field
makes `get_system_prompt` raise a `KeyError` instead of rendering the field
as empty text and returning a prompt. -/
theorem get_system_prompt_missing_name_cex :
    get_system_prompt [recNoName] = Except.error "KeyError: name" := by rfl

/-- C2 (amended): `get_system_prompt` performs no schema validation and
returns a prompt for every record whose `char`, `name` and `block` fields
are present, but a record with an absent optional field raises a key lookup
error instead of being rendered as empty text. -/
theorem get_system_prompt_total_on_complete_records :
    (∀ l : List CharacterRecord,
      (∀ r ∈ l, r.char.isSome ∧ r.name.isSome ∧ r.block.isSome) →
      ∃ s, get_system_prompt l = Except.ok s) ∧
    (∀ l : List CharacterRecord,
      (∃ r ∈ l, r.char = none ∨ r.name = none ∨ r.block = none) →
      ∃ e, get_system_prompt l = Except.error e) :=
  ⟨get_system_prompt_ok, get_system_prompt_error⟩

/-- C2 witness: the amended theorem applied to a batch of complete records. -/
theorem get_system_prompt_total_on_complete_records_witness :
    ∃ s, get_system_prompt [recA, recB] = Except.ok s :=
  get_system_prompt_total_on_complete_records.1 [recA, recB] (by decide)

/-- C3: the fetch is retried up to 5 attempts under exponential backoff with
base wait 2 seconds, doubling per attempt and capped at 60 seconds per wait,
and when all 5 attempts fail the failure propagates to the caller as an
error rather than being swallowed: the waits slept in a fully failing run
are exactly [2, 4, 8, 16]. -/
theorem retry_policy_spec (attempt : Nat → Except String (List GlyphDescription))
    (h : ∀ j, 1 ≤ j → j ≤ 5 → ∃ e, attempt j = Except.error e) :
    (∃ e, (generate_descriptions_batch attempt).1 = Except.error e) ∧
    (generate_descriptions_batch attempt).2.1 = 5 ∧
    (generate_descriptions_batch attempt).2.2 = [2, 4, 8, 16] ∧
    (∀ attempt2 : Nat → Except String (List GlyphDescription),
      (generate_descriptions_batch attempt2).2.1 ≤ 5) ∧
    wait_exponential 1 2 60 1 = 2 ∧
    (∀ j, wait_exponential 1 2 60 j ≤ 60) ∧
    (∀ j, 1 ≤ j →
      wait_exponential 1 2 60 (j + 1) = min (2 * wait_exponential 1 2 60 j) 60) := by
  obtain ⟨e1, h1⟩ := h 1 (by omega) (by omega)
  obtain ⟨e2, h2⟩ := h 2 (by omega) (by omega)
  obtain ⟨e3, h3⟩ := h 3 (by omega) (by omega)
  obtain ⟨e4, h4⟩ := h 4 (by omega) (by omega)
  obtain ⟨e5, h5⟩ := h 5 (by omega) (by omega)
  refine ⟨⟨"RetryError: " ++ e5, ?_⟩, ?_, ?_, ?_, ?_, ?_, ?_⟩
  · simp [generate_descriptions_batch, retryExec, h1, h2, h3, h4, h5]
  · simp [generate_descriptions_batch, retryExec, h1, h2, h3, h4, h5]
  · simp [generate_descriptions_batch, retryExec, h1, h2, h3, h4, h5, wait_exponential]
  · intro attempt2
    exact retryExec_attempts_le attempt2 5 1
  · rfl
  · intro j
    simp only [wait_exponential, one_mul, Nat.max_le]
    exact ⟨by norm_num, Nat.min_le_right _ _⟩
  · intro j hj
    have h2j : 2 ≤ 2 ^ j := by
      calc 2 = 2 ^ 1 := rfl
        _ ≤ 2 ^ j := Nat.pow_le_pow_right (by norm_num) hj
    simp only [wait_exponential, one_mul, pow_succ, Nat.min_def, Nat.max_def]
    split_ifs <;> omega

/-- C3 witness: the retry theorem applied to an always-failing oracle. -/
theorem retry_policy_spec_witness :
    (∃ e, (generate_descriptions_batch (oracleFail "p")).1 = Except.error e) ∧
    (generate_descriptions_batch (oracleFail "p")).2.1 = 5 ∧
    (generate_descriptions_batch (oracleFail "p")).2.2 = [2, 4, 8, 16] := by
  obtain ⟨a, b, c, _⟩ := retry_policy_spec (oracleFail "p")
    (fun j h1 h5 => ⟨"network error", rfl⟩)
  exact ⟨a, b, c⟩

/-- C4: when every catalog codepoint already has an entry in the loaded
description store, the pipeline body returns the store unchanged and makes
zero remote generation calls. -/
theorem main_run_idempotent (oracle : String → Nat → Except String (List GlyphDescription))
    (characters : List CharacterRecord) (descriptions : List (String × String))
    (h : ∀ c ∈ characters, dictContains descriptions c.code = true) :
    main_run oracle characters descriptions = Except.ok (descriptions, 0) := by
  have hfil : filter_characters_to_process characters descriptions = [] := by
    rw [filter_characters_eq]
    exact List.filter_eq_nil_iff.mpr (fun c hc => by simp [h c hc])
  simp [main_run, hfil]

/-- C4 witness: the idempotence theorem applied to a complete store. -/
theorem main_run_idempotent_witness :
    main_run oracleOkB [recA] [("0041", "x")] = Except.ok ([("0041", "x")], 0) :=
  main_run_idempotent oracleOkB [recA] [("0041", "x")] (by decide)

/-- C5: `filter_characters_to_process` returns exactly the catalog entries
whose codepoint is absent from the description map, in catalog order (it
equals `List.filter` with the membership test), and consequently every
record of every dispatched batch has a codepoint absent from the map. -/
theorem filter_pending_spec :
    (∀ (characters : List CharacterRecord) (descriptions : List (String × String)),
      filter_characters_to_process characters descriptions =
        characters.filter (fun c => ! dictContains descriptions c.code)) ∧
    (∀ (characters : List CharacterRecord) (descriptions : List (String × String))
        (batch_size : Nat) (bd : Nat × List CharacterRecord) (c : CharacterRecord),
      bd ∈ make_batches (filter_characters_to_process characters descriptions) batch_size →
      c ∈ bd.2 → dictContains descriptions c.code = false) :=
  ⟨filter_characters_eq, fun characters descriptions batch_size bd c hbd hc =>
    filter_characters_not_described characters descriptions c
      (mem_of_mem_batch _ batch_size bd hbd c hc)⟩

/-- C5 witness: the filter theorem applied to a concrete catalog, map and
batch: the already-described record is dropped and the dispatched record is
not in the map. -/
theorem filter_pending_spec_witness :
    filter_characters_to_process [recA, recB] [("0041", "x")] =
      List.filter (fun c => ! dictContains [("0041", "x")] c.code) [recA, recB] ∧
    dictContains [("0041", "x")] recB.code = false :=
  ⟨filter_pending_spec.1 [recA, recB] [("0041", "x")],
    filter_pending_spec.2 [recA, recB] [("0041", "x")] 25 (0, [recB]) recB
      (by decide) (by decide)⟩

/-- C6 counterexample: on the store with keys FFFD and 10000 (both valid
uppercase-hex codepoints) the finalizer orders 10000 before FFFD, which is
lexicographically ascending but numerically descending, so lexicographic
key order does not match ascending numeric codepoint order. -/
theorem save_sorted_hex_order_cex :
    save_sorted_descriptions [("FFFD", "a"), ("10000", "b")] =
      [("10000", "b"), ("FFFD", "a")] ∧
    hexVal "10000" = 65536 ∧ hexVal "FFFD" = 65533 ∧
    ¬ ((save_sorted_descriptions [("FFFD", "a"), ("10000", "b")]).map Prod.fst).Pairwise
      (fun a b => hexVal a < hexVal b) := by
  refine ⟨by decide, by decide, by decide, ?_⟩
  intro hp
  rw [show (save_sorted_descriptions [("FFFD", "a"), ("10000", "b")]).map Prod.fst
      = ["10000", "FFFD"] by decide] at hp
  have h1 : hexVal "10000" < hexVal "FFFD" :=
    List.rel_of_pairwise_cons hp (List.mem_singleton_self "FFFD")
  have h2 : hexVal "10000" = 65536 := by decide
  have h3 : hexVal "FFFD" = 65533 := by decide
  omega

/-- C6 (amended): the finalizer produces a mapping with exactly the same
entries whose keys are in strictly ascending code-point lexicographic
order; this order does not in general agree with numeric codepoint order
for keys of different lengths. -/
theorem save_sorted_spec (m : List (String × String)) :
    List.Perm (save_sorted_descriptions m) m ∧
    ((m.map Prod.fst).Nodup →
      (save_sorted_descriptions m).Pairwise (fun p q => strLt p.1 q.1 = true)) :=
  ⟨save_sorted_perm m, save_sorted_strict m⟩

/-- C6 witness: the finalizer theorem applied to a concrete two-entry map. -/
theorem save_sorted_spec_witness :
    List.Perm (save_sorted_descriptions [("0041", "x"), ("0001", "y")])
      [("0041", "x"), ("0001", "y")] ∧
    (save_sorted_descriptions [("0041", "x"), ("0001", "y")]).Pairwise
      (fun p q => strLt p.1 q.1 = true) :=
  ⟨(save_sorted_spec [("0041", "x"), ("0001", "y")]).1,
    (save_sorted_spec [("0041", "x"), ("0001", "y")]).2 (by decide)⟩

set_option maxRecDepth 8000 in
/-- C7 counterexample: a batch result carrying a codepoint that is already in
the loaded map (possible because nothing validates result codepoints against
the dispatched batch) overwrites the existing entry during the merge. -/
theorem description_map_overwrite_cex :
    dictGet [("0041", "old")] "0041" = some "old" ∧
    generate_parallel oracleC7 [recB] [("0041", "old")] 25 =
      Except.ok ([("0041", "new")], []) ∧
    dictGet [("0041", "new")] "0041" = some "new" ∧
    "new" ≠ "old" :=
  ⟨by decide, by rfl, by decide, by decide⟩

/-- C7 (amended): keys of the incoming map are never removed by the merge
(the map grows monotonically), and no existing entry value is overwritten
provided every batch result key belongs to the dispatched (filtered) work
set; a result key outside the work set may overwrite an existing entry. -/
theorem description_map_monotone_spec :
    (∀ (oracle : String → Nat → Except String (List GlyphDescription))
        (characters_to_process : List CharacterRecord)
        (descriptions m : List (String × String)) (batch_size : Nat) (w : List Nat),
      generate_parallel oracle characters_to_process descriptions batch_size =
        Except.ok (m, w) →
      ∀ k, dictContains descriptions k = true → dictContains m k = true) ∧
    (∀ (oracle : String → Nat → Except String (List GlyphDescription))
        (characters : List CharacterRecord) (descriptions : List (String × String))
        (batch_size : Nat) (results : List (Nat × List (String × String)))
        (m : List (String × String)) (w : List Nat),
      mapBatches (process_batch oracle)
          (make_batches (filter_characters_to_process characters descriptions) batch_size) =
        Except.ok results →
      (∀ r ∈ results, ∀ p ∈ r.2,
        p.1 ∈ (filter_characters_to_process characters descriptions).map
          CharacterRecord.code) →
      generate_parallel oracle (filter_characters_to_process characters descriptions)
          descriptions batch_size = Except.ok (m, w) →
      ∀ k, dictContains descriptions k = true → dictGet m k = dictGet descriptions k) :=
  ⟨fun oracle cs ds m bs w hok k hk =>
      generate_parallel_keys_monotone oracle cs ds bs m w hok k hk,
    fun oracle chars ds bs results m w hmap hkeys hok k hk =>
      generate_parallel_no_overwrite oracle chars ds bs results m w hmap hkeys hok k hk⟩

set_option maxRecDepth 8000 in
/-- C7 witness: the monotonicity half applied to the concrete overwrite run:
the pre-existing key 0041 is still present in the merged map. -/
theorem description_map_monotone_spec_witness :
    dictContains [("0041", "new")] "0041" = true :=
  description_map_monotone_spec.1 oracleC7 [recB] [("0041", "old")] [("0041", "new")] 25 []
    (by rfl) "0041" (by decide)

/-- C8 counterexample: a catalog with two records sharing the codepoint 0041
(and an empty description map) yields two batches whose codepoint sets both
contain 0041, so distinct batches are not disjoint without a uniqueness
precondition on the catalog. -/
theorem batch_disjointness_cex :
    (make_batches (filter_characters_to_process [recA, recA2] []) 1).map
      (fun bd => bd.2.map CharacterRecord.code) = [["0041"], ["0041"]] := by decide

/-- C8 (amended): provided the partitioned work list has pairwise distinct
codepoints (for example because catalog codepoints are unique), any two
distinct batches have disjoint codepoint sets, and updating a map with two
results whose key sets are disjoint yields the same mapping in either
order. -/
theorem batch_disjointness_spec :
    (∀ (l : List CharacterRecord) (batch_size : Nat), 0 < batch_size →
      (l.map CharacterRecord.code).Nodup →
      (make_batches l batch_size).Pairwise
        (fun b1 b2 =>
          List.Disjoint (b1.2.map CharacterRecord.code) (b2.2.map CharacterRecord.code))) ∧
    (∀ (m r1 r2 : List (String × String)),
      List.Disjoint (r1.map Prod.fst) (r2.map Prod.fst) →
      ∀ k, dictGet (dictUpdate (dictUpdate m r1) r2) k =
        dictGet (dictUpdate (dictUpdate m r2) r1) k) := by
  constructor
  · intro l batch_size hbs hnodup
    have hflat := make_batches_flatten l batch_size hbs
    have h1 : ((make_batches l batch_size).map
        (fun bd => bd.2.map CharacterRecord.code)).flatten = l.map CharacterRecord.code := by
      conv_rhs => rw [← hflat]
      rw [List.map_flatten, List.map_map]
      rfl
    rw [← h1] at hnodup
    exact List.pairwise_map.mp (List.nodup_flatten.mp hnodup).2
  · intro m r1 r2 hdisj k
    rw [dictGet_update, dictGet_update, dictGet_update, dictGet_update]
    cases h1 : lastVal r1 k with
    | some v =>
      have hk1 : k ∈ r1.map Prod.fst := lastVal_some_mem_key r1 k v h1
      have h2 : lastVal r2 k = none :=
        lastVal_none_of_no_key r2 k
          (fun p hp hpk => hdisj hk1 (hpk ▸ List.mem_map_of_mem Prod.fst hp))
      simp [h1, h2]
    | none =>
      cases h2 : lastVal r2 k <;> simp [h1, h2]

/-- C8 witness: the disjointness theorem applied to a duplicate-free
two-record work list split into singleton batches. -/
theorem batch_disjointness_spec_witness :
    (make_batches [recA, recB] 1).Pairwise
      (fun b1 b2 =>
        List.Disjoint (b1.2.map CharacterRecord.code) (b2.2.map CharacterRecord.code)) :=
  batch_disjointness_spec.1 [recA, recB] 1 (by decide) (by decide)

/-- C9: the work filter deduplicates only against the existing description
map, never within the catalog: every occurrence of a codepoint that is
absent from the map is kept, so a catalog with duplicate codepoints yields
duplicate work items. -/
theorem filter_keeps_duplicate_codepoints (characters : List CharacterRecord)
    (descriptions : List (String × String)) (c : String)
    (h : dictContains descriptions c = false) :
    (filter_characters_to_process characters descriptions).countP (fun r => r.code == c) =
      characters.countP (fun r => r.code == c) := by
  rw [filter_characters_eq, List.countP_filter]
  refine List.countP_congr ?_
  intro r hr
  constructor
  · intro hb
    exact (Bool.and_eq_true _ _ |>.mp hb).1
  · intro hb
    have hrc : r.code = c := by simpa using hb
    rw [Bool.and_eq_true]
    exact ⟨hb, by simp [hrc, h]⟩

/-- C9 witness: both occurrences of the duplicated codepoint 0041 survive
the filter against an empty map. -/
theorem filter_keeps_duplicate_codepoints_witness :
    (filter_characters_to_process [recA, recA2] []).countP (fun r => r.code == "0041") =
      List.countP (fun r => r.code == "0041") [recA, recA2] ∧
    List.countP (fun r => (r.code == "0041" : Bool)) [recA, recA2] = 2 :=
  ⟨filter_keeps_duplicate_codepoints [recA, recA2] [] "0041" (by decide), by decide⟩

/-- C10: the merge loop warns on exactly the batches whose result dictionary
is empty and silently merges every non-empty result dictionary into the
accumulated map with no validation against the dispatched batch contents:
the merged map is the fold of dict updates over all results and the warning
list is exactly the indices of the empty results. -/
theorem merge_warning_iff_empty_spec :
    (∀ (descriptions : List (String × String))
        (results : List (Nat × List (String × String))),
      merge_results descriptions results =
        (results.foldl (fun acc result => dictUpdate acc result.2) descriptions,
          (results.filter (fun result => result.2.isEmpty)).map Prod.fst)) ∧
    (∀ (oracle : String → Nat → Except String (List GlyphDescription))
        (characters_to_process : List CharacterRecord)
        (descriptions : List (String × String)) (batch_size : Nat)
        (results : List (Nat × List (String × String))),
      mapBatches (process_batch oracle) (make_batches characters_to_process batch_size) =
        Except.ok results →
      generate_parallel oracle characters_to_process descriptions batch_size =
        Except.ok (merge_results descriptions results)) :=
  ⟨merge_results_eq, generate_parallel_ok⟩

set_option maxRecDepth 8000 in
/-- C10 witness: a run whose single batch returns an empty result produces
the untouched map plus a warning naming batch index 0. -/
theorem merge_warning_iff_empty_spec_witness :
    generate_parallel oracleEmpty [recB] [] 25 =
      Except.ok (merge_results [] [(0, [])]) :=
  merge_warning_iff_empty_spec.2 oracleEmpty [recB] [] 25 [(0, [])] (by rfl)
